import Mathlib

/-!
Verification of the story-map layout script `push_storymap_r4_to_miro.py`.

The script converts a three-level tree (themes → activities → stories) into
positioned visual elements (frames, lane-title shapes, sticky notes) and
either previews them (dry-run) or dispatches creation calls to an HTTP sink.

Machine integers do not appear: all geometry constants are even, so every
coordinate the Python computes (using float division by 2) is an exact
integer; we model coordinates as `Int`.
-/

set_option linter.unusedVariables false

namespace Miro

/-- Fixed team → sticky color mapping (`TEAM_COLOR` in the source),
in source order: IHM is listed first. -/
def TEAM_COLOR : List (String × String) :=
  [("IHM", "light_yellow"),
   ("BPM", "light_green"),
   ("Métier", "light_blue"),
   ("Metier", "light_blue"),
   ("Finance", "light_blue"),
   ("MO", "light_pink")]

/-- Fixed status → marker glyph mapping (`STATUS_EMOJI` in the source). -/
def STATUS_EMOJI : List (String × String) :=
  [("Backlog", "⬜️"),
   ("À faire", "🟦"),
   ("En cours", "🟨"),
   ("Bloqué", "🟥"),
   ("À valider", "🟪"),
   ("Terminé", "✅")]

/-- `TEAM_COLOR.get(team, "light_yellow")` from the source. -/
def teamColorOf (team : String) : String :=
  (TEAM_COLOR.lookup team).getD "light_yellow"

/-- `STATUS_EMOJI.get(status, "⬜️")` from the source. -/
def statusEmojiOf (status : String) : String :=
  (STATUS_EMOJI.lookup status).getD "⬜️"

-- Geometry constants (pixels), straight from the source.
def FRAME_W : Int := 1800
def FRAME_H : Int := 1400
def COL_GAP : Int := 300
def ROW_GAP : Int := 200
def STICKY_W : Int := 220
def STICKY_H : Int := 140
def STICKY_GAP_X : Int := 40
def STICKY_GAP_Y : Int := 30
def TITLE_HEIGHT : Int := 100
def LANE_HEIGHT : Int := 260
def ORIGIN_X : Int := -2000
def ORIGIN_Y : Int := -1000

/-- A leaf story with its metadata. -/
structure Story where
  title : String
  sprint : String
  team : String
  status : String
deriving DecidableEq

/-- An activity ("swimlane") with its ordered stories. -/
structure Activity where
  name : String
  stories : List Story
deriving DecidableEq

/-- A theme ("epic") with its ordered activities. -/
structure Theme where
  name : String
  activities : List Activity
deriving DecidableEq

/-- The whole story map. -/
structure Model where
  release : String
  themes : List Theme
deriving DecidableEq

/-- `compute_frame_origin(col_idx, row_idx=0)` from the source:
frame centre of the column `col_idx` frame. -/
def compute_frame_origin (col_idx : Nat) (row_idx : Nat := 0) : Int × Int :=
  (ORIGIN_X + (col_idx : Int) * (FRAME_W + COL_GAP),
   ORIGIN_Y + (row_idx : Int) * (FRAME_H + ROW_GAP))

/-- `lane_y(frame_y, lane_idx)` from the source. -/
def lane_y (frame_y : Int) (lane_idx : Nat) : Int :=
  frame_y - FRAME_H / 2 + TITLE_HEIGHT + (lane_idx : Int) * LANE_HEIGHT + LANE_HEIGHT / 2

/-- `lane_title_y(frame_y, lane_idx)` from the source. -/
def lane_title_y (frame_y : Int) (lane_idx : Nat) : Int :=
  frame_y - FRAME_H / 2 + TITLE_HEIGHT + (lane_idx : Int) * LANE_HEIGHT + 30

/-- `sticky_grid_positions(start_x, start_y, columns, count)` from the source:
the loop `for i in range(count)` appending one position per index. -/
def sticky_grid_positions (start_x start_y : Int) (columns count : Nat) :
    List (Int × Int) :=
  (List.range count).map (fun i =>
    (start_x + ((i % columns : Nat) : Int) * (STICKY_W + STICKY_GAP_X),
     start_y + ((i / columns : Nat) : Int) * (STICKY_H + STICKY_GAP_Y)))

/-- Python `str.strip()`: drop whitespace from both ends (written over the
character list so that it evaluates by kernel reduction). -/
def strip (s : String) : String :=
  String.mk (((s.data.dropWhile Char.isWhitespace).reverse.dropWhile
    Char.isWhitespace).reverse)

/-- Python `str.lower()`: lowercase every character. -/
def lower (s : String) : String :=
  String.mk (s.data.map Char.toLower)

/-- One CSV row as seen by `csv.DictReader`: `none` models a column absent
from the file (so that `row.get(key, default)` falls back to the default). -/
structure Row where
  theme : Option String
  activity : Option String
  story : Option String
  sprint : Option String
  team : Option String
  status : Option String
  notes : Option String
deriving DecidableEq

/-- `row.get(key, default).strip()` from the source. -/
def fieldOr (v : Option String) (d : String) : String :=
  strip (v.getD d)

/-- The theme key of a row: `row.get("Theme", "Inconnu").strip()`. -/
def rowTheme (r : Row) : String := fieldOr r.theme "Inconnu"

/-- The activity key of a row: `row.get("Activity", "Général").strip()`. -/
def rowActivity (r : Row) : String := fieldOr r.activity "Général"

/-- The story a row contributes, with the source defaults and the
`story if not notes else f"{story}\n\n📝 {notes}"` title. -/
def mkStory (r : Row) : Story :=
  let story := fieldOr r.story ""
  let notes := fieldOr r.notes ""
  { title := if notes = "" then story else story ++ "\n\n📝 " ++ notes,
    sprint := fieldOr r.sprint "S1",
    team := fieldOr r.team "MO",
    status := fieldOr r.status "Backlog" }

/-- Find-or-create of the activity named `an` (matched case-insensitively,
`a["name"].lower() == activity.lower()` in the source) and append the story. -/
def addToActivities : List Activity → String → Story → List Activity
  | [], an, st => [{ name := an, stories := [st] }]
  | a :: rest, an, st =>
    if lower a.name = lower an then
      { name := a.name, stories := a.stories ++ [st] } :: rest
    else
      a :: addToActivities rest an st

/-- Find-or-create of the theme named `tn` (matched case-sensitively via the
`themes` dict keyed by the exact name) and insert the story into it. -/
def addToThemes : List Theme → String → String → Story → List Theme
  | [], tn, an, st => [{ name := tn, activities := addToActivities [] an st }]
  | t :: rest, tn, an, st =>
    if t.name = tn then
      { name := t.name, activities := addToActivities t.activities an st } :: rest
    else
      t :: addToThemes rest tn an st

/-- Processing of one CSV row in the `load_from_csv` loop. -/
def loadRow (ts : List Theme) (r : Row) : List Theme :=
  addToThemes ts (rowTheme r) (rowActivity r) (mkStory r)

/-- `load_from_csv(path)` from the source, over the parsed rows: builds the
theme dict in first-seen order and returns `list(themes.values())`. -/
def load_from_csv (rows : List Row) : Model :=
  { release := "R4", themes := rows.foldl loadRow [] }

/-- Sticky text from the source f-string: the status glyph, a space, the
title, a newline, then the bracketed team and sprint labels. -/
def tileText (st : Story) : String :=
  statusEmojiOf st.status ++ " " ++ st.title ++ "\n[" ++ st.team ++ "] [" ++ st.sprint ++ "]"

/-- A placed visual element, carrying the loop indices of `render_storymap`
(`col_idx` for the theme column, `lane_idx` for the activity lane) together
with the exact text, absolute position and style the source computes. -/
inductive Element where
  | frame (col_idx : Nat) (title : String) (x y : Int)
  | lane (col_idx lane_idx : Nat) (name : String) (x y : Int)
  | tile (col_idx lane_idx : Nat) (text : String) (x y : Int) (color : String)
deriving DecidableEq

/-- The theme column index an element belongs to. -/
def Element.themeIdx : Element → Nat
  | .frame i _ _ _ => i
  | .lane i _ _ _ _ => i
  | .tile i _ _ _ _ _ => i

/-- The lane index of an element, `none` for a frame. -/
def Element.laneIdx? : Element → Option Nat
  | .frame _ _ _ _ => none
  | .lane _ j _ _ _ => some j
  | .tile _ j _ _ _ _ => some j

/-- The body of the `for lane_idx, activity in enumerate(activities)` loop:
the lane-title shape, then (unless the story list is empty — the
`if not stories: continue` guard) one sticky per story, zipped with
`sticky_grid_positions`. -/
def actElements (i : Nat) (fx fy : Int) (j : Nat) (a : Activity) : List Element :=
  let title_x := fx - FRAME_W / 2 + 200
  let title_y := lane_title_y fy j
  let laneEl := Element.lane i j a.name title_x title_y
  if a.stories = [] then [laneEl]
  else
    let start_x := fx - FRAME_W / 2 + 300
    let start_y := lane_y fy j
    let positions := sticky_grid_positions start_x start_y 4 a.stories.length
    laneEl :: (a.stories.zip positions).map (fun p =>
      Element.tile i j (tileText p.1) p.2.1 p.2.2 (teamColorOf p.1.team))

/-- The activities loop, `lane_idx` counting from `j`. -/
def actsElements (i : Nat) (fx fy : Int) : Nat → List Activity → List Element
  | _, [] => []
  | j, a :: rest => actElements i fx fy j a ++ actsElements i fx fy (j + 1) rest

/-- The body of the `for col_idx, theme in enumerate(themes)` loop: the
frame (title `f"{prefix} – {theme_name}"`, origin `compute_frame_origin`)
followed by the theme lanes and stickies. -/
def themeElements (pfx : String) (i : Nat) (t : Theme) : List Element :=
  let p := compute_frame_origin i
  Element.frame i (pfx ++ " – " ++ t.name) p.1 p.2 :: actsElements i p.1 p.2 0 t.activities

/-- The themes loop, `col_idx` counting from `i`. -/
def themesElements (pfx : String) : Nat → List Theme → List Element
  | _, [] => []
  | i, t :: rest => themeElements pfx i t ++ themesElements pfx (i + 1) rest

/-- The full ordered sequence of elements `render_storymap` traverses:
each theme frame, then per activity its lane title then its stickies,
a theme descendants entirely before the next theme. The element data
does not depend on any sink response (the source never uses the returned
ids for placement), so the traversal is a pure function of the model. -/
def elements (model : Model) (pfx : String) : List Element :=
  themesElements pfx 0 model.themes

/-- One `[DRY] ...` preview line of `render_storymap`, as structured data:
for a sticky the source prints only the first 40 characters of the text. -/
inductive Line where
  | frame (title : String) (x y : Int)
  | lane (name : String) (x y : Int)
  | sticky (snippet : String) (x y : Int) (color : String)
deriving DecidableEq

/-- The preview line printed for an element (`text[:40]` for stickies). -/
def describe : Element → Line
  | .frame _ title x y => .frame title x y
  | .lane _ _ name x y => .lane name x y
  | .tile _ _ text x y color => .sticky (text.take 40) x y color

/-- An HTTP response from the sink: status code, body text, and the `id`
field of the JSON body. -/
structure HttpResponse where
  status : Nat
  text : String
  id : String
deriving DecidableEq

/-- `_post` from the source: raises `RuntimeError` when
`resp.status_code >= 400`, else returns the JSON body (its id). -/
def post_result (r : HttpResponse) : Except String String :=
  if 400 ≤ r.status then
    Except.error ("POST failed: " ++ toString r.status ++ " " ++ r.text)
  else
    Except.ok r.id

/-- Renderer state: the preview lines printed so far, the creation calls
dispatched so far (in order), the ids returned so far, the number of POSTs
issued (indexing the sink oracle), and the pending uncaught error, if any. -/
structure RState where
  lines : List Line
  calls : List Element
  ids : List String
  n : Nat
  err : Option String
deriving DecidableEq

/-- Processing of one element by `render_storymap`: once an error has been
raised nothing further runs (the exception propagates uncaught); in dry-run
mode a preview line is printed and no call is made; otherwise the creation
call is dispatched and `post_result` either yields an id or raises. -/
def step (dry : Bool) (sink : Nat → HttpResponse) (s : RState) (e : Element) : RState :=
  if s.err.isSome then s
  else if dry then { s with lines := s.lines ++ [describe e] }
  else
    match post_result (sink s.n) with
    | Except.error msg =>
      { s with calls := s.calls ++ [e], n := s.n + 1, err := some msg }
    | Except.ok i =>
      { s with calls := s.calls ++ [e], n := s.n + 1, ids := s.ids ++ [i] }

/-- `render_storymap(board_id, token, model, prefix, dry_run)` from the
source, with the sink responses supplied by the oracle `sink` (the
status, body and id of the `n`-th POST). -/
def render_storymap (model : Model) (pfx : String) (dry : Bool)
    (sink : Nat → HttpResponse) : RState :=
  (elements model pfx).foldl (step dry sink) ⟨[], [], [], 0, none⟩

/-- A JSON value, enough for the request payloads the source builds. -/
inductive JVal where
  | str (v : String)
  | num (n : Int)
  | obj (fields : List (String × JVal))

/-- The payload `create_frame` sends: `{"data": {"title": title},
"position": {"x": x, "y": y}}` — `w` and `h` are accepted by the Python
function but never written into the payload. -/
def frame_payload (title : String) (x y : Int) (w h : Int) : JVal :=
  JVal.obj [("data", JVal.obj [("title", JVal.str title)]),
            ("position", JVal.obj [("x", JVal.num x), ("y", JVal.num y)])]

/-- The payload `create_shape` sends: data (content, shape kind), position,
and style (fontSize 28) — `w`, `h` unused. -/
def shape_payload (text : String) (x y : Int) (w h : Int) (shape : String) : JVal :=
  JVal.obj [("data", JVal.obj [("content", JVal.str text), ("shape", JVal.str shape)]),
            ("position", JVal.obj [("x", JVal.num x), ("y", JVal.num y)]),
            ("style", JVal.obj [("fontSize", JVal.num 28)])]

/-- The payload `create_sticky` sends: data (content), style (fillColor,
textAlign), position — `w`, `h` unused. -/
def sticky_payload (text : String) (x y : Int) (color : String) (w h : Int) : JVal :=
  JVal.obj [("data", JVal.obj [("content", JVal.str text)]),
            ("style", JVal.obj [("fillColor", JVal.str color),
                                ("textAlign", JVal.str "left")]),
            ("position", JVal.obj [("x", JVal.num x), ("y", JVal.num y)])]

/-- The top-level keys of a JSON object. -/
def topKeys : JVal → List String
  | .obj fs => fs.map Prod.fst
  | _ => []

/-- The theme names of a theme list, in order. -/
def themeNames (ts : List Theme) : List String := ts.map (fun t => t.name)

/-- The lowercase activity names of an activity list, in order — the keys
the loader merges activities by. -/
def actKeys (as : List Activity) : List String := as.map (fun a => lower a.name)

/-- The stories of the activity with lowercase key `aLow` inside the theme
named `tn` (both found the way the loader finds them); `[]` when absent. -/
def storiesOf (ts : List Theme) (tn aLow : String) : List Story :=
  match ts.find? (fun t => t.name == tn) with
  | none => []
  | some t =>
    match t.activities.find? (fun a => lower a.name == aLow) with
    | none => []
    | some a => a.stories

/-- Loader invariant: theme names are pairwise distinct (case-sensitively)
and, within each theme, lowercase activity names are pairwise distinct. -/
def loadInv (ts : List Theme) : Prop :=
  (themeNames ts).Nodup ∧ ∀ t ∈ ts, (actKeys t.activities).Nodup

/-- Matcher: the frame of theme column `i`. -/
def isFrameOf (i : Nat) : Element → Bool
  | .frame i' _ _ _ => i' == i
  | _ => false

/-- Matcher: any lane title of theme column `i`. -/
def isLaneOfTheme (i : Nat) : Element → Bool
  | .lane i' _ _ _ _ => i' == i
  | _ => false

/-- Matcher: the lane title of lane `j` of theme column `i`. -/
def isLaneOf (i j : Nat) : Element → Bool
  | .lane i' j' _ _ _ => i' == i && j' == j
  | _ => false

/-- Matcher: any tile of lane `j` of theme column `i`. -/
def isTileOf (i j : Nat) : Element → Bool
  | .tile i' j' _ _ _ _ => i' == i && j' == j
  | _ => false

/-! ## Theorems -/

/-- Claim C2: for a lane with `count` stories and 4 grid columns, the position
list has one entry per story, and the entry of story `i` sits at grid column
`i % 4` and grid row `i / 4`, at coordinates
`start + col*(tileWidth+gapX)` / `start + row*(tileHeight+gapY)`
(`render_storymap` always calls `sticky_grid_positions` with `columns = 4`
and `count` the lane story count). -/
theorem sticky_grid_packing (sx sy : Int) (count i : Nat) (h : i < count) :
    (sticky_grid_positions sx sy 4 count).length = count ∧
    (sticky_grid_positions sx sy 4 count)[i]? =
      some (sx + ((i % 4 : Nat) : Int) * (STICKY_W + STICKY_GAP_X),
            sy + ((i / 4 : Nat) : Int) * (STICKY_H + STICKY_GAP_Y)) := by
  constructor
  · simp [sticky_grid_positions]
  · simp [sticky_grid_positions, List.getElem?_map, List.getElem?_range, h]

/-- Witness for C2: a lane of 5 stories, story 4 lands at row 1, column 0. -/
theorem sticky_grid_packing_witness :
    (sticky_grid_positions 0 0 4 5).length = 5 ∧
    (sticky_grid_positions 0 0 4 5)[4]? =
      some (0 + ((4 % 4 : Nat) : Int) * (STICKY_W + STICKY_GAP_X),
            0 + ((4 / 4 : Nat) : Int) * (STICKY_H + STICKY_GAP_Y)) :=
  sticky_grid_packing 0 0 5 4 (by decide)

/-- Claim C3: the team→color and status→glyph lookups are total functions of
the input string; an unknown (or empty) team resolves to the token of the
first-listed team IHM, and an unknown (or empty) status resolves to the
Backlog glyph. -/
theorem style_fallback_totality :
    (∀ team, TEAM_COLOR.lookup team = none → teamColorOf team = teamColorOf "IHM") ∧
    (∀ status, STATUS_EMOJI.lookup status = none →
      statusEmojiOf status = statusEmojiOf "Backlog") ∧
    teamColorOf "" = teamColorOf "IHM" ∧
    statusEmojiOf "" = statusEmojiOf "Backlog" := by
  refine ⟨?_, ?_, by decide, by decide⟩
  · intro team h
    simp only [teamColorOf, h]
    decide
  · intro status h
    simp only [statusEmojiOf, h]
    decide

/-- Witness for C3: the unknown team "QA" and unknown status "Done" hit the
fallbacks. -/
theorem style_fallback_totality_witness :
    TEAM_COLOR.lookup "QA" = none ∧ teamColorOf "QA" = teamColorOf "IHM" ∧
    STATUS_EMOJI.lookup "Done" = none ∧ statusEmojiOf "Done" = statusEmojiOf "Backlog" :=
  ⟨by decide, style_fallback_totality.1 "QA" (by decide),
   by decide, style_fallback_totality.2.1 "Done" (by decide)⟩

/-- Counterexample for C5, refuting both parts of the claim at concrete
rows. First, a row with every column missing is loaded into the theme
"Inconnu" and activity "Général" — the French defaults of the source — not
the claimed "Unknown" / "General" (the story itself gets the defaults
S1 / MO / Backlog and an empty title). Second, a row missing its Story field
but carrying Notes "n" is loaded into a story titled `"\n\n📝 n"`, which is
not empty — so "a row missing its Story field produces a story with an empty
title" also fails unless Notes is missing too. -/
theorem loader_defaults_french_counterexample :
    (load_from_csv [⟨none, none, none, none, none, none, none⟩]).themes =
      [{ name := "Inconnu",
         activities := [{ name := "Général",
                          stories := [{ title := "", sprint := "S1",
                                        team := "MO", status := "Backlog" }] }] }] ∧
    (load_from_csv [⟨none, none, none, none, none, none, none⟩]).themes.map
        (fun t => t.name) ≠ ["Unknown"] ∧
    (("Inconnu" : String) ≠ "Unknown" ∧ ("Général" : String) ≠ "General") ∧
    (load_from_csv [⟨none, none, none, none, none, none, some "n"⟩]).themes =
      [{ name := "Inconnu",
         activities := [{ name := "Général",
                          stories := [{ title := "\n\n📝 n", sprint := "S1",
                                        team := "MO", status := "Backlog" }] }] }] ∧
    ("\n\n📝 n" : String) ≠ "" := by
  refine ⟨by decide, by decide, ⟨by decide, by decide⟩, by decide, by decide⟩

/-- Claim C5 (amended): the loader substitutes Theme→"Inconnu",
Activity→"Général", Sprint→"S1", Team→"MO", Status→"Backlog" for missing
fields, and a row missing its Story field (and Notes) yields a story with an
empty title; loading is total, so no validation failure can occur. -/
theorem loader_defaults_amended (r : Row) :
    (r.theme = none → rowTheme r = "Inconnu") ∧
    (r.activity = none → rowActivity r = "Général") ∧
    (r.sprint = none → (mkStory r).sprint = "S1") ∧
    (r.team = none → (mkStory r).team = "MO") ∧
    (r.status = none → (mkStory r).status = "Backlog") ∧
    (r.story = none → r.notes = none → (mkStory r).title = "") := by
  refine ⟨?_, ?_, ?_, ?_, ?_, ?_⟩
  · intro h; simp only [rowTheme, fieldOr, h, Option.getD]; decide
  · intro h; simp only [rowActivity, fieldOr, h, Option.getD]; decide
  · intro h; simp only [mkStory, fieldOr, h, Option.getD]; decide
  · intro h; simp only [mkStory, fieldOr, h, Option.getD]; decide
  · intro h; simp only [mkStory, fieldOr, h, Option.getD]; decide
  · intro h1 h2; simp only [mkStory, fieldOr, h1, h2, Option.getD]; decide

/-- Witness for C5 (amended): the all-missing row gets every default. -/
theorem loader_defaults_amended_witness :
    rowTheme ⟨none, none, none, none, none, none, none⟩ = "Inconnu" ∧
    rowActivity ⟨none, none, none, none, none, none, none⟩ = "Général" ∧
    (mkStory ⟨none, none, none, none, none, none, none⟩).sprint = "S1" ∧
    (mkStory ⟨none, none, none, none, none, none, none⟩).team = "MO" ∧
    (mkStory ⟨none, none, none, none, none, none, none⟩).status = "Backlog" ∧
    (mkStory ⟨none, none, none, none, none, none, none⟩).title = "" :=
  ⟨(loader_defaults_amended _).1 rfl, (loader_defaults_amended _).2.1 rfl,
   (loader_defaults_amended _).2.2.1 rfl, (loader_defaults_amended _).2.2.2.1 rfl,
   (loader_defaults_amended _).2.2.2.2.1 rfl,
   (loader_defaults_amended _).2.2.2.2.2 rfl rfl⟩

/-- `compute_frame_origin` at the default row 0, in closed form. -/
theorem compute_frame_origin_row0 (i : Nat) :
    compute_frame_origin i = (ORIGIN_X + (i : Int) * (FRAME_W + COL_GAP), ORIGIN_Y) := by
  simp [compute_frame_origin]

/-- No frame element ever appears among a lane elements. -/
theorem frame_not_mem_actElements (i : Nat) (fx fy : Int) (j : Nat) (a : Activity)
    (i' : Nat) (ttl : String) (x y : Int) :
    Element.frame i' ttl x y ∉ actElements i fx fy j a := by
  simp only [actElements]
  split
  · simp
  · simp [List.mem_cons, List.mem_map]

/-- No frame element ever appears in the activities part of a theme. -/
theorem frame_not_mem_actsElements (i : Nat) (fx fy : Int) (as : List Activity)
    (i' : Nat) (ttl : String) (x y : Int) :
    ∀ j0, Element.frame i' ttl x y ∉ actsElements i fx fy j0 as := by
  induction as with
  | nil => intro j0; simp [actsElements]
  | cons a rest ih =>
    intro j0
    simp only [actsElements, List.mem_append]
    rintro (h | h)
    · exact frame_not_mem_actElements i fx fy j0 a i' ttl x y h
    · exact ih (j0 + 1) h

/-- The only frame of a theme block is the theme own frame. -/
theorem frame_mem_themeElements {pfx : String} {i : Nat} {t : Theme}
    {i' : Nat} {ttl : String} {x y : Int}
    (h : Element.frame i' ttl x y ∈ themeElements pfx i t) :
    i' = i ∧ ttl = pfx ++ " – " ++ t.name ∧
      x = (compute_frame_origin i).1 ∧ y = (compute_frame_origin i).2 := by
  simp only [themeElements, List.mem_cons] at h
  rcases h with h | h
  · obtain ⟨h1, h2, h3, h4⟩ := Element.frame.inj h
    exact ⟨h1, h2, h3, h4⟩
  · exact absurd h (frame_not_mem_actsElements i _ _ t.activities i' ttl x y 0)

/-- Every frame in the traversal sits at `compute_frame_origin` of its own
column index. -/
theorem frame_mem_themesElements (pfx : String) {i' : Nat} {ttl : String} {x y : Int} :
    ∀ (ts : List Theme) (i0 : Nat), Element.frame i' ttl x y ∈ themesElements pfx i0 ts →
    x = (compute_frame_origin i').1 ∧ y = (compute_frame_origin i').2 := by
  intro ts
  induction ts with
  | nil => intro i0 h; simp [themesElements] at h
  | cons t rest ih =>
    intro i0 h
    simp only [themesElements, List.mem_append] at h
    rcases h with h | h
    · obtain ⟨h1, _, h3, h4⟩ := frame_mem_themeElements h
      subst h1
      exact ⟨h3, h4⟩
    · exact ih (i0 + 1) h

/-- Each theme of the model contributes its frame to the traversal. -/
theorem frame_exists_themesElements (pfx : String) :
    ∀ (ts : List Theme) (i0 n : Nat) (t : Theme), ts[n]? = some t →
    Element.frame (i0 + n) (pfx ++ " – " ++ t.name)
      (compute_frame_origin (i0 + n)).1 (compute_frame_origin (i0 + n)).2 ∈
      themesElements pfx i0 ts := by
  intro ts
  induction ts with
  | nil => intro i0 n t h; simp at h
  | cons t' rest ih =>
    intro i0 n t h
    cases n with
    | zero =>
      simp only [List.getElem?_cons_zero, Option.some.injEq] at h
      subst h
      simp only [themesElements, List.mem_append, Nat.add_zero]
      exact Or.inl (by simp [themeElements])
    | succ m =>
      simp only [List.getElem?_cons_succ] at h
      have hmem := ih (i0 + 1) m t h
      have harith : i0 + (m + 1) = (i0 + 1) + m := by omega
      rw [harith]
      simp only [themesElements, List.mem_append]
      exact Or.inr hmem

/-- Claim C1: the traversal places the frame of theme `i` at
`x = ORIGIN_X + i*(FRAME_W + COL_GAP)`, and every frame sits at
`y = ORIGIN_Y` (the row index is fixed at 0). -/
theorem frame_column_ordering (model : Model) (pfx : String) :
    (∀ i ttl x y, Element.frame i ttl x y ∈ elements model pfx →
      x = ORIGIN_X + (i : Int) * (FRAME_W + COL_GAP) ∧ y = ORIGIN_Y) ∧
    (∀ i t, model.themes[i]? = some t →
      Element.frame i (pfx ++ " – " ++ t.name)
        (ORIGIN_X + (i : Int) * (FRAME_W + COL_GAP)) ORIGIN_Y ∈ elements model pfx) := by
  constructor
  · intro i ttl x y h
    have := frame_mem_themesElements pfx model.themes 0 h
    rwa [compute_frame_origin_row0] at this
  · intro i t h
    have := frame_exists_themesElements pfx model.themes 0 i t h
    rw [compute_frame_origin_row0] at this
    simpa [elements] using this

/-- Witness for C1: a two-theme model; theme 1 frame sits one column step
to the right of the origin, at `y = ORIGIN_Y`. -/
theorem frame_column_ordering_witness :
    (Model.mk "R4" [Theme.mk "A" [], Theme.mk "B" []]).themes[1]? = some (Theme.mk "B" []) ∧
    Element.frame 1 ("R4" ++ " – " ++ "B")
        (ORIGIN_X + ((1 : Nat) : Int) * (FRAME_W + COL_GAP)) ORIGIN_Y ∈
      elements (Model.mk "R4" [Theme.mk "A" [], Theme.mk "B" []]) "R4" :=
  ⟨by decide,
   (frame_column_ordering (Model.mk "R4" [Theme.mk "A" [], Theme.mk "B" []]) "R4").2
     1 (Theme.mk "B" []) (by decide)⟩

/-- Every element of a lane block belongs to that theme and lane. -/
theorem mem_actElements_laneIdx {i : Nat} {fx fy : Int} {j : Nat} {a : Activity}
    {e : Element} (h : e ∈ actElements i fx fy j a) :
    e.themeIdx = i ∧ e.laneIdx? = some j := by
  simp only [actElements] at h
  split at h
  · simp only [List.mem_singleton] at h
    subst h
    exact ⟨rfl, rfl⟩
  · rcases List.mem_cons.mp h with h | h
    · subst h
      exact ⟨rfl, rfl⟩
    · rcases List.mem_map.mp h with ⟨p, _, he⟩
      subst he
      exact ⟨rfl, rfl⟩

/-- Every element of the activities part of a theme belongs to that theme,
at a lane index at least the starting one. -/
theorem mem_actsElements_laneIdx {i : Nat} {fx fy : Int} {e : Element} :
    ∀ (as : List Activity) (j0 : Nat), e ∈ actsElements i fx fy j0 as →
    e.themeIdx = i ∧ ∃ j, j0 ≤ j ∧ e.laneIdx? = some j := by
  intro as
  induction as with
  | nil => intro j0 h; simp [actsElements] at h
  | cons a rest ih =>
    intro j0 h
    rcases List.mem_append.mp h with h | h
    · have hh := mem_actElements_laneIdx h
      exact ⟨hh.1, j0, Nat.le_refl j0, hh.2⟩
    · obtain ⟨h1, j, hj, h2⟩ := ih (j0 + 1) h
      exact ⟨h1, j, by omega, h2⟩

/-- Every element of a theme block carries that theme column index. -/
theorem mem_themeElements_themeIdx {pfx : String} {i : Nat} {t : Theme} {e : Element}
    (h : e ∈ themeElements pfx i t) : e.themeIdx = i := by
  simp only [themeElements, List.mem_cons] at h
  rcases h with h | h
  · subst h; rfl
  · exact (mem_actsElements_laneIdx t.activities 0 h).1

/-- Elements of the tail of the traversal have column index at least the
starting one. -/
theorem mem_themesElements_themeIdx {pfx : String} {e : Element} :
    ∀ (ts : List Theme) (i0 : Nat), e ∈ themesElements pfx i0 ts → i0 ≤ e.themeIdx := by
  intro ts
  induction ts with
  | nil => intro i0 h; simp [themesElements] at h
  | cons t rest ih =>
    intro i0 h
    rcases List.mem_append.mp h with h | h
    · exact Nat.le_of_eq (mem_themeElements_themeIdx h).symm
    · exact Nat.le_of_succ_le (ih (i0 + 1) h)

/-- A filter that pins the theme column index to `i0 + n` only sees the
block of theme `n` (counting from `i0`). -/
theorem filter_themesElements (P : Element → Bool) (pfx : String) :
    ∀ (ts : List Theme) (i0 n : Nat) (t : Theme), ts[n]? = some t →
    (∀ e, P e = true → e.themeIdx = i0 + n) →
    (themesElements pfx i0 ts).filter P = (themeElements pfx (i0 + n) t).filter P := by
  intro ts
  induction ts with
  | nil => intro i0 n t h _; simp at h
  | cons t' rest ih =>
    intro i0 n t h hP
    cases n with
    | zero =>
      simp only [List.getElem?_cons_zero, Option.some.injEq] at h
      subst h
      simp only [themesElements, List.filter_append]
      have hnil : (themesElements pfx (i0 + 1) rest).filter P = [] := by
        refine List.filter_eq_nil_iff.mpr fun e he hPe => ?_
        have h1 := mem_themesElements_themeIdx rest (i0 + 1) he
        have h2 := hP e hPe
        omega
      rw [hnil, List.append_nil, Nat.add_zero]
    | succ m =>
      simp only [List.getElem?_cons_succ] at h
      simp only [themesElements, List.filter_append]
      have hnil : (themeElements pfx i0 t').filter P = [] := by
        refine List.filter_eq_nil_iff.mpr fun e he hPe => ?_
        have h1 := mem_themeElements_themeIdx he
        have h2 := hP e hPe
        omega
      rw [hnil, List.nil_append]
      have harith : i0 + (m + 1) = (i0 + 1) + m := by omega
      rw [harith]
      exact ih (i0 + 1) m t h (fun e hPe => by have := hP e hPe; omega)

/-- A filter that pins the lane index to `j0 + m` only sees the block of
lane `m` (counting from `j0`) within the activities of a theme. -/
theorem filter_actsElements (P : Element → Bool) (i : Nat) (fx fy : Int) :
    ∀ (as : List Activity) (j0 m : Nat) (a : Activity), as[m]? = some a →
    (∀ e, P e = true → e.laneIdx? = some (j0 + m)) →
    (actsElements i fx fy j0 as).filter P = (actElements i fx fy (j0 + m) a).filter P := by
  intro as
  induction as with
  | nil => intro j0 m a h _; simp at h
  | cons a' rest ih =>
    intro j0 m a h hP
    cases m with
    | zero =>
      simp only [List.getElem?_cons_zero, Option.some.injEq] at h
      subst h
      simp only [actsElements, List.filter_append]
      have hnil : (actsElements i fx fy (j0 + 1) rest).filter P = [] := by
        refine List.filter_eq_nil_iff.mpr fun e he hPe => ?_
        obtain ⟨_, j, hj, hje⟩ := mem_actsElements_laneIdx rest (j0 + 1) he
        have h2 := hP e hPe
        rw [h2] at hje
        have : j0 + 0 = j := Option.some.inj hje
        omega
      rw [hnil, List.append_nil, Nat.add_zero]
    | succ m' =>
      simp only [List.getElem?_cons_succ] at h
      simp only [actsElements, List.filter_append]
      have hnil : (actElements i fx fy j0 a').filter P = [] := by
        refine List.filter_eq_nil_iff.mpr fun e he hPe => ?_
        have h1 := (mem_actElements_laneIdx he).2
        have h2 := hP e hPe
        rw [h2] at h1
        have := Option.some.inj h1
        omega
      rw [hnil, List.nil_append]
      have harith : j0 + (m' + 1) = (j0 + 1) + m' := by omega
      rw [harith]
      refine ih (j0 + 1) m' a h (fun e hPe => ?_)
      rw [show (j0 + 1) + m' = j0 + (m' + 1) from by omega]
      exact hP e hPe

/-- A frame matcher only accepts elements of theme column `i`. -/
theorem isFrameOf_themeIdx {i : Nat} : ∀ e, isFrameOf i e = true → e.themeIdx = i := by
  intro e he
  cases e with
  | frame i' ttl x y => simp only [isFrameOf, beq_iff_eq] at he; simpa [Element.themeIdx]
  | lane i' j' nm x y => simp [isFrameOf] at he
  | tile i' j' txt x y c => simp [isFrameOf] at he

/-- A theme-wide lane matcher only accepts elements of theme column `i`. -/
theorem isLaneOfTheme_themeIdx {i : Nat} :
    ∀ e, isLaneOfTheme i e = true → e.themeIdx = i := by
  intro e he
  cases e with
  | frame i' ttl x y => simp [isLaneOfTheme] at he
  | lane i' j' nm x y => simp only [isLaneOfTheme, beq_iff_eq] at he; simpa [Element.themeIdx]
  | tile i' j' txt x y c => simp [isLaneOfTheme] at he

/-- A lane matcher only accepts elements of theme column `i`. -/
theorem isLaneOf_themeIdx {i j : Nat} : ∀ e, isLaneOf i j e = true → e.themeIdx = i := by
  intro e he
  cases e with
  | frame i' ttl x y => simp [isLaneOf] at he
  | lane i' j' nm x y =>
    simp only [isLaneOf, Bool.and_eq_true, beq_iff_eq] at he
    simpa [Element.themeIdx] using he.1
  | tile i' j' txt x y c => simp [isLaneOf] at he

/-- A lane matcher only accepts elements of lane `j`. -/
theorem isLaneOf_laneIdx {i j : Nat} : ∀ e, isLaneOf i j e = true → e.laneIdx? = some j := by
  intro e he
  cases e with
  | frame i' ttl x y => simp [isLaneOf] at he
  | lane i' j' nm x y =>
    simp only [isLaneOf, Bool.and_eq_true, beq_iff_eq] at he
    simp [Element.laneIdx?, he.2]
  | tile i' j' txt x y c => simp [isLaneOf] at he

/-- A tile matcher only accepts elements of theme column `i`. -/
theorem isTileOf_themeIdx {i j : Nat} : ∀ e, isTileOf i j e = true → e.themeIdx = i := by
  intro e he
  cases e with
  | frame i' ttl x y => simp [isTileOf] at he
  | lane i' j' nm x y => simp [isTileOf] at he
  | tile i' j' txt x y c =>
    simp only [isTileOf, Bool.and_eq_true, beq_iff_eq] at he
    simpa [Element.themeIdx] using he.1

/-- A tile matcher only accepts elements of lane `j`. -/
theorem isTileOf_laneIdx {i j : Nat} : ∀ e, isTileOf i j e = true → e.laneIdx? = some j := by
  intro e he
  cases e with
  | frame i' ttl x y => simp [isTileOf] at he
  | lane i' j' nm x y => simp [isTileOf] at he
  | tile i' j' txt x y c =>
    simp only [isTileOf, Bool.and_eq_true, beq_iff_eq] at he
    simp [Element.laneIdx?, he.2]

/-- Claim C6: an activity with zero stories contributes exactly one
lane-title placement and zero tile placements to the output; a theme with
zero activities contributes exactly one frame placement and zero lane-title
placements. -/
theorem empty_nodes_layout (model : Model) (pfx : String) :
    ∀ i t, model.themes[i]? = some t →
      (t.activities = [] →
        ((elements model pfx).filter (isFrameOf i)).length = 1 ∧
        ((elements model pfx).filter (isLaneOfTheme i)).length = 0) ∧
      (∀ j a, t.activities[j]? = some a → a.stories = [] →
        ((elements model pfx).filter (isLaneOf i j)).length = 1 ∧
        ((elements model pfx).filter (isTileOf i j)).length = 0) := by
  intro i t hit
  have hElems : elements model pfx = themesElements pfx 0 model.themes := rfl
  constructor
  · intro hemp
    constructor
    · rw [hElems, filter_themesElements (isFrameOf i) pfx model.themes 0 i t hit
        (fun e he => by rw [Nat.zero_add]; exact isFrameOf_themeIdx e he), Nat.zero_add]
      simp [themeElements, actsElements, hemp, isFrameOf]
    · rw [hElems, filter_themesElements (isLaneOfTheme i) pfx model.themes 0 i t hit
        (fun e he => by rw [Nat.zero_add]; exact isLaneOfTheme_themeIdx e he), Nat.zero_add]
      simp [themeElements, actsElements, hemp, isLaneOfTheme]
  · intro j a hja hemp
    constructor
    · rw [hElems, filter_themesElements (isLaneOf i j) pfx model.themes 0 i t hit
        (fun e he => by rw [Nat.zero_add]; exact isLaneOf_themeIdx e he), Nat.zero_add]
      simp only [themeElements, List.filter_cons, isLaneOf]
      rw [filter_actsElements (isLaneOf i j) i _ _ t.activities 0 j a hja
        (fun e he => by rw [Nat.zero_add]; exact isLaneOf_laneIdx e he), Nat.zero_add]
      simp [actElements, hemp, isLaneOf]
    · rw [hElems, filter_themesElements (isTileOf i j) pfx model.themes 0 i t hit
        (fun e he => by rw [Nat.zero_add]; exact isTileOf_themeIdx e he), Nat.zero_add]
      simp only [themeElements, List.filter_cons, isTileOf]
      rw [filter_actsElements (isTileOf i j) i _ _ t.activities 0 j a hja
        (fun e he => by rw [Nat.zero_add]; exact isTileOf_laneIdx e he), Nat.zero_add]
      simp [actElements, hemp, isTileOf]

/-- Witness for C6: a model whose first theme has one empty activity and
whose second theme is empty. -/
theorem empty_nodes_layout_witness :
    ((Model.mk "R4" [Theme.mk "T1" [Activity.mk "A1" []], Theme.mk "T2" []]).themes[0]? =
      some (Theme.mk "T1" [Activity.mk "A1" []])) ∧
    ((elements (Model.mk "R4" [Theme.mk "T1" [Activity.mk "A1" []], Theme.mk "T2" []])
        "R4").filter (isLaneOf 0 0)).length = 1 ∧
    ((elements (Model.mk "R4" [Theme.mk "T1" [Activity.mk "A1" []], Theme.mk "T2" []])
        "R4").filter (isTileOf 0 0)).length = 0 :=
  ⟨by decide,
   ((empty_nodes_layout
      (Model.mk "R4" [Theme.mk "T1" [Activity.mk "A1" []], Theme.mk "T2" []]) "R4")
      0 (Theme.mk "T1" [Activity.mk "A1" []]) (by decide)).2
      0 (Activity.mk "A1" []) (by decide) (by decide)⟩

/-- Every tile of a lane block carries the text and color derived from one
of the lane stories. -/
theorem tile_mem_actElements {i : Nat} {fx fy : Int} {j : Nat} {a : Activity}
    {i' j' : Nat} {txt : String} {x y : Int} {c : String}
    (h : Element.tile i' j' txt x y c ∈ actElements i fx fy j a) :
    ∃ st ∈ a.stories, txt = tileText st ∧ c = teamColorOf st.team := by
  simp only [actElements] at h
  split at h
  · simp at h
  · rcases List.mem_cons.mp h with h | h
    · simp at h
    · rcases List.mem_map.mp h with ⟨p, hp, he⟩
      rcases p with ⟨st, pos⟩
      have hst := (List.of_mem_zip hp).1
      simp only [Element.tile.injEq] at he
      exact ⟨st, hst, he.2.2.1.symm, he.2.2.2.2.2.symm⟩

/-- Every tile of a theme activities part comes from some story. -/
theorem tile_mem_actsElements {i : Nat} {fx fy : Int}
    {i' j' : Nat} {txt : String} {x y : Int} {c : String} :
    ∀ (as : List Activity) (j0 : Nat),
    Element.tile i' j' txt x y c ∈ actsElements i fx fy j0 as →
    ∃ st : Story, txt = tileText st ∧ c = teamColorOf st.team := by
  intro as
  induction as with
  | nil => intro j0 h; simp [actsElements] at h
  | cons a rest ih =>
    intro j0 h
    simp only [actsElements, List.mem_append] at h
    rcases h with h | h
    · obtain ⟨st, _, h1, h2⟩ := tile_mem_actElements h
      exact ⟨st, h1, h2⟩
    · exact ih _ h

/-- Every tile of the whole traversal comes from some story. -/
theorem tile_mem_elements {model : Model} {pfx : String}
    {i' j' : Nat} {txt : String} {x y : Int} {c : String}
    (h : Element.tile i' j' txt x y c ∈ elements model pfx) :
    ∃ st : Story, txt = tileText st ∧ c = teamColorOf st.team := by
  suffices H : ∀ (ts : List Theme) (i0 : Nat),
      Element.tile i' j' txt x y c ∈ themesElements pfx i0 ts →
      ∃ st : Story, txt = tileText st ∧ c = teamColorOf st.team from
    H model.themes 0 h
  intro ts
  induction ts with
  | nil => intro i0 hmem; simp [themesElements] at hmem
  | cons t rest ih =>
    intro i0 hmem
    simp only [themesElements, List.mem_append] at hmem
    rcases hmem with hmem | hmem
    · simp only [themeElements, List.mem_cons] at hmem
      rcases hmem with hmem | hmem
      · simp at hmem
      · exact tile_mem_actsElements t.activities 0 hmem
    · exact ih (i0 + 1) hmem

/-- Claim C7: the text of a tile is the status glyph, a space, the story title
(which, for CSV input with a non-empty Notes field, embeds the note after a
blank line and the note glyph), and a newline followed by `[team] [sprint]`;
its fill color is the color resolved from the story team. -/
theorem tile_text_and_color (model : Model) (pfx : String) :
    (∀ i j txt x y c, Element.tile i j txt x y c ∈ elements model pfx →
      ∃ st : Story,
        txt = statusEmojiOf st.status ++ " " ++ st.title ++
              "\n[" ++ st.team ++ "] [" ++ st.sprint ++ "]" ∧
        c = teamColorOf st.team) ∧
    (∀ r : Row, fieldOr r.notes "" ≠ "" →
      (mkStory r).title = fieldOr r.story "" ++ "\n\n📝 " ++ fieldOr r.notes "") := by
  constructor
  · intro i j txt x y c h
    obtain ⟨st, h1, h2⟩ := tile_mem_elements h
    exact ⟨st, by simpa [tileText] using h1, h2⟩
  · intro r h
    simp [mkStory, h]

/-- Witness for C7: the single story of a one-story model yields the tile
with glyph-prefixed text and the IHM color, and a row with notes "n" gets
the note suffix. -/
theorem tile_text_and_color_witness :
    (Element.tile 0 0 (tileText ⟨"S", "S1", "IHM", "Backlog"⟩) (-2600) (-1470)
        "light_yellow" ∈
      elements (Model.mk "R4" [Theme.mk "T" [Activity.mk "A"
        [⟨"S", "S1", "IHM", "Backlog"⟩]]]) "R4") ∧
    (∃ st : Story,
      tileText ⟨"S", "S1", "IHM", "Backlog"⟩ =
        statusEmojiOf st.status ++ " " ++ st.title ++
          "\n[" ++ st.team ++ "] [" ++ st.sprint ++ "]" ∧
      "light_yellow" = teamColorOf st.team) ∧
    (mkStory ⟨none, none, some "S", none, none, none, some "n"⟩).title =
      fieldOr (some "S") "" ++ "\n\n📝 " ++ fieldOr (some "n") "" :=
  ⟨by decide,
   (tile_text_and_color (Model.mk "R4" [Theme.mk "T" [Activity.mk "A"
      [⟨"S", "S1", "IHM", "Backlog"⟩]]]) "R4").1 0 0 _ (-2600) (-1470) _ (by decide),
   (tile_text_and_color (Model.mk "R4" []) "R4").2
      ⟨none, none, some "S", none, none, none, some "n"⟩ (by decide)⟩

/-- Folding the dry-run step never contacts the sink and appends exactly one
preview line per element, in traversal order. -/
theorem foldl_step_dry (sink : Nat → HttpResponse) :
    ∀ (es : List Element) (s : RState), s.err = none →
    es.foldl (step true sink) s = { s with lines := s.lines ++ es.map describe } := by
  intro es
  induction es with
  | nil => intro s h; simp
  | cons e rest ih =>
    intro s h
    have hstep : step true sink s e = { s with lines := s.lines ++ [describe e] } := by
      simp [step, h]
    rw [List.foldl_cons, hstep, ih { s with lines := s.lines ++ [describe e] } h]
    simp [List.append_assoc]

/-- Claim C9: in preview mode, for every non-empty model, zero sink calls
are made (so zero ids are collected) and the preview lines are exactly one
description per placed element, in the traversal order of `elements`
(frames before their lanes before their tiles, one theme fully before the
next). -/
theorem dry_run_preview (model : Model) (pfx : String) (sink : Nat → HttpResponse)
    (h : model.themes ≠ []) :
    (render_storymap model pfx true sink).calls = [] ∧
    (render_storymap model pfx true sink).ids = [] ∧
    (render_storymap model pfx true sink).lines = (elements model pfx).map describe := by
  have H := foldl_step_dry sink (elements model pfx) ⟨[], [], [], 0, none⟩ rfl
  unfold render_storymap
  rw [H]
  exact ⟨rfl, rfl, by simp⟩

/-- Witness for C9: the one-theme model previewed with an always-OK sink. -/
theorem dry_run_preview_witness :
    (Model.mk "R4" [Theme.mk "T" []]).themes ≠ [] ∧
    ((render_storymap (Model.mk "R4" [Theme.mk "T" []]) "R4" true
        (fun _ => ⟨200, "ok", "i0"⟩)).calls = [] ∧
     (render_storymap (Model.mk "R4" [Theme.mk "T" []]) "R4" true
        (fun _ => ⟨200, "ok", "i0"⟩)).ids = [] ∧
     (render_storymap (Model.mk "R4" [Theme.mk "T" []]) "R4" true
        (fun _ => ⟨200, "ok", "i0"⟩)).lines =
       (elements (Model.mk "R4" [Theme.mk "T" []]) "R4").map describe) :=
  ⟨by decide,
   dry_run_preview (Model.mk "R4" [Theme.mk "T" []]) "R4"
     (fun _ => ⟨200, "ok", "i0"⟩) (by decide)⟩

/-- Once an error has been raised, no further element is processed. -/
theorem foldl_step_err (d : Bool) (sink : Nat → HttpResponse) :
    ∀ (es : List Element) (s : RState), s.err.isSome → es.foldl (step d sink) s = s := by
  intro es
  induction es with
  | nil => intro s _; rfl
  | cons e rest ih =>
    intro s h
    rw [List.foldl_cons]
    have hstep : step d sink s e = s := by simp [step, h]
    rw [hstep]
    exact ih s h

/-- Folding the apply-mode step over elements, when call `k` (0-indexed,
counting from the state call counter) is the first to fail: the run stops
with the error pending, having dispatched exactly the elements up to and
including the failing one, and keeping the ids of the earlier successes. -/
theorem foldl_step_apply (sink : Nat → HttpResponse) :
    ∀ (es : List Element) (s : RState) (k : Nat),
    s.err = none →
    (∀ m, m < k → (sink (s.n + m)).status < 400) →
    400 ≤ (sink (s.n + k)).status →
    k < es.length →
    (es.foldl (step false sink) s).err.isSome = true ∧
    (es.foldl (step false sink) s).calls = s.calls ++ es.take (k + 1) ∧
    (es.foldl (step false sink) s).ids =
      s.ids ++ (List.range' s.n k).map (fun m => (sink m).id) := by
  intro es
  induction es with
  | nil =>
    intro s k _ _ _ h4
    simp only [List.length_nil] at h4
    exact absurd h4 (Nat.not_lt_zero k)
  | cons e rest ih =>
    intro s k h1 h2 h3 h4
    cases k with
    | zero =>
      have hfail : 400 ≤ (sink s.n).status := by simpa using h3
      have hstep : step false sink s e =
          { s with
            calls := s.calls ++ [e]
            n := s.n + 1
            err := some ("POST failed: " ++ toString (sink s.n).status ++ " " ++
              (sink s.n).text) } := by
        simp [step, h1, post_result, hfail]
      rw [List.foldl_cons, hstep, foldl_step_err false sink rest _ (by simp)]
      refine ⟨by simp, by simp, by simp⟩
    | succ m =>
      have hok : (sink s.n).status < 400 := by simpa using h2 0 (Nat.succ_pos m)
      have hstep : step false sink s e =
          { s with
            calls := s.calls ++ [e]
            n := s.n + 1
            ids := s.ids ++ [(sink s.n).id] } := by
        simp [step, h1, post_result, not_le.mpr hok]
      rw [List.foldl_cons, hstep]
      have h2' : ∀ m', m' < m → (sink ((s.n + 1) + m')).status < 400 := by
        intro m' hm'
        have hv := h2 (m' + 1) (by omega)
        have harith : s.n + (m' + 1) = s.n + 1 + m' := by omega
        rwa [harith] at hv
      have h3' : 400 ≤ (sink ((s.n + 1) + m)).status := by
        have harith : s.n + (m + 1) = s.n + 1 + m := by omega
        rwa [harith] at h3
      have h4' : m < rest.length := by
        simp only [List.length_cons] at h4
        omega
      obtain ⟨g1, g2, g3⟩ := ih
        { s with
          calls := s.calls ++ [e]
          n := s.n + 1
          ids := s.ids ++ [(sink s.n).id] } m h1 h2' h3' h4'
      refine ⟨g1, ?_, ?_⟩
      · rw [g2]
        simp [List.append_assoc]
      · rw [g3]
        have hr : List.range' s.n (m + 1) = s.n :: List.range' (s.n + 1) m := rfl
        rw [hr]
        simp [List.append_assoc]

/-- Claim C8: in apply mode, when the sink answers call `k` (the first
failure) with a status of 400 or above, the raised error propagates uncaught
(`err` is set and, by `foldl_step_err`, nothing further runs): exactly the
first `k+1` elements were dispatched — the failing call once, no retry, no
subsequent element — and the ids of the `k` already-created elements remain
collected, with no rollback (the model has no deletion operation at all). -/
theorem sink_failure_aborts_run (model : Model) (pfx : String)
    (sink : Nat → HttpResponse) (k : Nat)
    (h2 : ∀ m, m < k → (sink m).status < 400)
    (h3 : 400 ≤ (sink k).status)
    (h4 : k < (elements model pfx).length) :
    (render_storymap model pfx false sink).err.isSome = true ∧
    (render_storymap model pfx false sink).calls = (elements model pfx).take (k + 1) ∧
    (render_storymap model pfx false sink).ids =
      (List.range k).map (fun m => (sink m).id) := by
  have H := foldl_step_apply sink (elements model pfx) ⟨[], [], [], 0, none⟩ k rfl
    (by intro m hm; simpa using h2 m hm) (by simpa using h3) h4
  unfold render_storymap
  obtain ⟨g1, g2, g3⟩ := H
  refine ⟨g1, by simpa using g2, ?_⟩
  rw [g3, List.range_eq_range']
  simp

/-- Witness for C8: a one-theme model against a sink that answers 500 to
every call: the very first call fails, it is dispatched exactly once, and no
id is collected. -/
theorem sink_failure_aborts_run_witness :
    400 ≤ ((fun _ => HttpResponse.mk 500 "boom" "id0") 0).status ∧
    0 < (elements (Model.mk "R4" [Theme.mk "T" []]) "R4").length ∧
    ((render_storymap (Model.mk "R4" [Theme.mk "T" []]) "R4" false
        (fun _ => HttpResponse.mk 500 "boom" "id0")).err.isSome = true ∧
     (render_storymap (Model.mk "R4" [Theme.mk "T" []]) "R4" false
        (fun _ => HttpResponse.mk 500 "boom" "id0")).calls =
       (elements (Model.mk "R4" [Theme.mk "T" []]) "R4").take (0 + 1) ∧
     (render_storymap (Model.mk "R4" [Theme.mk "T" []]) "R4" false
        (fun _ => HttpResponse.mk 500 "boom" "id0")).ids =
       (List.range 0).map (fun m =>
         ((fun _ => HttpResponse.mk 500 "boom" "id0") m).id)) :=
  ⟨by decide, by decide,
   sink_failure_aborts_run (Model.mk "R4" [Theme.mk "T" []]) "R4"
     (fun _ => HttpResponse.mk 500 "boom" "id0") 0
     (fun m hm => absurd hm (Nat.not_lt_zero m)) (by decide) (by decide)⟩

/-- Looking an activity key up after a find-or-create: the created/updated
activity is found under the row key, other keys are untouched. -/
theorem find?_addToActivities (as : List Activity) (an : String) (st : Story)
    (aLow : String) :
    (addToActivities as an st).find? (fun a => lower a.name == aLow) =
      if lower an = aLow then
        match as.find? (fun a => lower a.name == lower an) with
        | none => some { name := an, stories := [st] }
        | some a => some { name := a.name, stories := a.stories ++ [st] }
      else as.find? (fun a => lower a.name == aLow) := by
  induction as with
  | nil =>
    by_cases h : lower an = aLow
    · simp [addToActivities, List.find?, h]
    · simp [addToActivities, List.find?, h, beq_eq_false_iff_ne.mpr h]
  | cons a rest ih =>
    simp only [addToActivities]
    by_cases h1 : lower a.name = lower an
    · rw [if_pos h1]
      by_cases h2 : lower an = aLow
      · rw [List.find?_cons_of_pos _ (by simp [h1, h2]), if_pos h2,
          List.find?_cons_of_pos _ (by simp [h1])]
      · rw [List.find?_cons_of_neg _ (by simp [h1, h2]), if_neg h2,
          List.find?_cons_of_neg _ (by simp [h1, h2])]
    · rw [if_neg h1]
      by_cases h2 : lower a.name = aLow
      · have h3 : lower an ≠ aLow := fun hc => h1 (h2.trans hc.symm)
        rw [List.find?_cons_of_pos _ (by simp [h2]), if_neg h3,
          List.find?_cons_of_pos _ (by simp [h2])]
      · rw [List.find?_cons_of_neg _ (by simp [h2]), ih]
        by_cases h3 : lower an = aLow
        · rw [if_pos h3, if_pos h3, List.find?_cons_of_neg _ (by simp [h1])]
        · rw [if_neg h3, if_neg h3, List.find?_cons_of_neg _ (by simp [h2])]

/-- Looking a theme name up after a find-or-create: the created/updated
theme is found under the row exact name, other names are untouched. -/
theorem find?_addToThemes (ts : List Theme) (tn an : String) (st : Story)
    (n : String) :
    (addToThemes ts tn an st).find? (fun t => t.name == n) =
      if tn = n then
        match ts.find? (fun t => t.name == tn) with
        | none => some { name := tn, activities := addToActivities [] an st }
        | some t => some { name := t.name, activities := addToActivities t.activities an st }
      else ts.find? (fun t => t.name == n) := by
  induction ts with
  | nil =>
    by_cases h : tn = n
    · simp [addToThemes, List.find?, h]
    · simp [addToThemes, List.find?, h, beq_eq_false_iff_ne.mpr h]
  | cons t rest ih =>
    simp only [addToThemes]
    by_cases h1 : t.name = tn
    · rw [if_pos h1]
      by_cases h2 : tn = n
      · rw [List.find?_cons_of_pos _ (by simp [h1, h2]), if_pos h2,
          List.find?_cons_of_pos _ (by simp [h1])]
      · rw [List.find?_cons_of_neg _ (by simp [h1, h2]), if_neg h2,
          List.find?_cons_of_neg _ (by simp [h1, h2])]
    · rw [if_neg h1]
      by_cases h2 : t.name = n
      · have h3 : tn ≠ n := fun hc => h1 (by rw [h2, hc])
        rw [List.find?_cons_of_pos _ (by simp [h2]), if_neg h3,
          List.find?_cons_of_pos _ (by simp [h2])]
      · rw [List.find?_cons_of_neg _ (by simp [h2]), ih]
        by_cases h3 : tn = n
        · rw [if_pos h3, if_pos h3, List.find?_cons_of_neg _ (by simp [h1])]
        · rw [if_neg h3, if_neg h3, List.find?_cons_of_neg _ (by simp [h2])]

/-- One row appends its story to exactly the (theme, activity-key) slot it
addresses, leaving every other slot unchanged. -/
theorem storiesOf_loadRow (ts : List Theme) (r : Row) (tn aLow : String) :
    storiesOf (loadRow ts r) tn aLow =
      storiesOf ts tn aLow ++
        (if rowTheme r == tn && lower (rowActivity r) == aLow then [mkStory r]
         else []) := by
  simp only [loadRow, storiesOf]
  rw [find?_addToThemes]
  by_cases h1 : rowTheme r = tn
  · subst h1
    rw [if_pos rfl]
    cases hf : ts.find? (fun t => t.name == rowTheme r) with
    | none =>
      by_cases h2 : lower (rowActivity r) = aLow
      · subst h2
        simp [addToActivities, List.find?]
      · simp [addToActivities, List.find?, h2, beq_eq_false_iff_ne.mpr h2]
    | some t =>
      dsimp only
      rw [find?_addToActivities]
      by_cases h2 : lower (rowActivity r) = aLow
      · subst h2
        rw [if_pos rfl]
        cases hfa : t.activities.find? (fun a => lower a.name == lower (rowActivity r)) with
        | none => simp
        | some a => simp
      · rw [if_neg h2]
        cases hfa : t.activities.find? (fun a => lower a.name == aLow) with
        | none => simp [h2]
        | some a => simp [h2]
  · rw [if_neg h1]
    simp [h1]

/-- Folding the loader over rows appends, slot by slot, exactly the stories
of the rows addressing that slot, in input order. -/
theorem storiesOf_foldl (tn aLow : String) :
    ∀ (rows : List Row) (ts : List Theme),
    storiesOf (rows.foldl loadRow ts) tn aLow =
      storiesOf ts tn aLow ++
        (rows.filter (fun r =>
          rowTheme r == tn && lower (rowActivity r) == aLow)).map mkStory := by
  intro rows
  induction rows with
  | nil => intro ts; simp
  | cons r rest ih =>
    intro ts
    rw [List.foldl_cons, ih, storiesOf_loadRow]
    by_cases h : (rowTheme r == tn && lower (rowActivity r) == aLow) = true
    · have hfc : (r :: rest).filter
          (fun r => rowTheme r == tn && lower (rowActivity r) == aLow) =
          r :: rest.filter (fun r => rowTheme r == tn && lower (rowActivity r) == aLow) :=
        List.filter_cons_of_pos h
      rw [if_pos h, hfc, List.map_cons]
      simp [List.append_assoc]
    · have hfc : (r :: rest).filter
          (fun r => rowTheme r == tn && lower (rowActivity r) == aLow) =
          rest.filter (fun r => rowTheme r == tn && lower (rowActivity r) == aLow) :=
        List.filter_cons_of_neg (by simpa using h)
      rw [if_neg h, hfc, List.append_nil]

/-- The theme-name list after a find-or-create: unchanged when the name was
present, otherwise extended at the end by the new name. -/
theorem themeNames_addToThemes (ts : List Theme) (tn an : String) (st : Story) :
    themeNames (addToThemes ts tn an st) =
      if (ts.find? (fun t => t.name == tn)).isSome then themeNames ts
      else themeNames ts ++ [tn] := by
  induction ts with
  | nil => simp [addToThemes, themeNames, List.find?]
  | cons t rest ih =>
    simp only [addToThemes]
    by_cases h1 : t.name = tn
    · rw [List.find?_cons_of_pos _ (by simp [h1])]
      simp [themeNames, h1]
    · rw [List.find?_cons_of_neg _ (by simp [h1]), if_neg h1]
      have lhs : themeNames (t :: addToThemes rest tn an st) =
          t.name :: themeNames (addToThemes rest tn an st) := rfl
      rw [lhs, ih]
      by_cases h2 : (rest.find? (fun t => t.name == tn)).isSome = true
      · simp [h2, themeNames]
      · simp [h2, themeNames]

/-- A find-or-create keeps theme names pairwise distinct. -/
theorem nodup_themeNames_addToThemes {ts : List Theme} {tn an : String} {st : Story}
    (h : (themeNames ts).Nodup) : (themeNames (addToThemes ts tn an st)).Nodup := by
  by_cases hc : (ts.find? (fun t => t.name == tn)).isSome
  · rw [themeNames_addToThemes, if_pos hc]; exact h
  · rw [themeNames_addToThemes, if_neg hc]
    have htn : tn ∉ themeNames ts := by
      intro hmem
      rcases List.mem_map.mp hmem with ⟨t, ht, hname⟩
      have hne : ts.find? (fun t' => t'.name == tn) ≠ none := by
        intro hnone
        have := List.find?_eq_none.mp hnone t ht
        simp [hname] at this
      exact hc (Option.ne_none_iff_isSome.mp hne)
    simp [List.nodup_append, h, htn]

/-- The activity-key list after a find-or-create: unchanged when the key was
present, otherwise extended at the end by the new key. -/
theorem actKeys_addToActivities (as : List Activity) (an : String) (st : Story) :
    actKeys (addToActivities as an st) =
      if (as.find? (fun a => lower a.name == lower an)).isSome then actKeys as
      else actKeys as ++ [lower an] := by
  induction as with
  | nil => simp [addToActivities, actKeys, List.find?]
  | cons a rest ih =>
    simp only [addToActivities]
    by_cases h1 : lower a.name = lower an
    · rw [List.find?_cons_of_pos _ (by simp [h1])]
      simp [actKeys, h1]
    · rw [List.find?_cons_of_neg _ (by simp [h1]), if_neg h1]
      have lhs : actKeys (a :: addToActivities rest an st) =
          lower a.name :: actKeys (addToActivities rest an st) := rfl
      rw [lhs, ih]
      by_cases h2 : (rest.find? (fun a => lower a.name == lower an)).isSome = true
      · simp [h2, actKeys]
      · simp [h2, actKeys]

/-- A find-or-create keeps activity keys pairwise distinct. -/
theorem nodup_actKeys_addToActivities {as : List Activity} {an : String} {st : Story}
    (h : (actKeys as).Nodup) : (actKeys (addToActivities as an st)).Nodup := by
  by_cases hc : (as.find? (fun a => lower a.name == lower an)).isSome
  · rw [actKeys_addToActivities, if_pos hc]; exact h
  · rw [actKeys_addToActivities, if_neg hc]
    have han : lower an ∉ actKeys as := by
      intro hmem
      rcases List.mem_map.mp hmem with ⟨a, ha, hname⟩
      have hne : as.find? (fun a' => lower a'.name == lower an) ≠ none := by
        intro hnone
        have := List.find?_eq_none.mp hnone a ha
        simp [hname] at this
      exact hc (Option.ne_none_iff_isSome.mp hne)
    simp [List.nodup_append, h, han]

/-- A find-or-create keeps every theme activity keys distinct. -/
theorem acts_nodup_addToThemes {tn an : String} {st : Story} :
    ∀ {ts : List Theme}, (∀ t ∈ ts, (actKeys t.activities).Nodup) →
    ∀ t ∈ addToThemes ts tn an st, (actKeys t.activities).Nodup := by
  intro ts
  induction ts with
  | nil =>
    intro _ t ht
    simp only [addToThemes, List.mem_singleton] at ht
    subst ht
    exact nodup_actKeys_addToActivities (by simp [actKeys])
  | cons t' rest ih =>
    intro h t ht
    simp only [addToThemes] at ht
    by_cases h1 : t'.name = tn
    · rw [if_pos h1] at ht
      rcases List.mem_cons.mp ht with hh | hh
      · subst hh
        exact nodup_actKeys_addToActivities (h t' (by simp))
      · exact h t (by simp [hh])
    · rw [if_neg h1] at ht
      rcases List.mem_cons.mp ht with hh | hh
      · rw [hh]; exact h t' (by simp)
      · exact ih (fun x hx => h x (by simp [hx])) t hh

/-- One loader step preserves the loader invariant. -/
theorem loadInv_loadRow {ts : List Theme} {r : Row} (h : loadInv ts) :
    loadInv (loadRow ts r) :=
  ⟨nodup_themeNames_addToThemes h.1, acts_nodup_addToThemes h.2⟩

/-- The whole fold preserves the loader invariant. -/
theorem loadInv_foldl :
    ∀ (rows : List Row) (ts : List Theme), loadInv ts → loadInv (rows.foldl loadRow ts) := by
  intro rows
  induction rows with
  | nil => intro ts h; exact h
  | cons r rest ih => intro ts h; exact ih _ (loadInv_loadRow h)

/-- In a list with pairwise-distinct keys, searching a member key finds
exactly that member. -/
theorem find?_key_of_mem {α : Type} (key : α → String) :
    ∀ (l : List α) (x : α), (l.map key).Nodup → x ∈ l →
    l.find? (fun y => key y == key x) = some x := by
  intro l
  induction l with
  | nil => intro x _ hx; simp at hx
  | cons a rest ih =>
    intro x hnd hx
    rcases List.mem_cons.mp hx with h | h
    · subst h; exact List.find?_cons_of_pos _ (by simp)
    · have hnd' : (∀ z ∈ rest, ¬key z = key a) ∧ (rest.map key).Nodup := by
        simpa using hnd
      have hka : key a ≠ key x := fun hc => hnd'.1 x h hc.symm
      rw [List.find?_cons_of_neg _ (by simp [hka])]
      exact ih x hnd'.2 h

/-- Claim C4: loading merges rows into themes by case-sensitive exact theme
name (theme names in the result are pairwise distinct), merges activities
within a theme case-insensitively (lowercase activity keys are pairwise
distinct per theme), and each activity stories are exactly the stories of
the rows addressing it, in input order. -/
theorem loader_merge_rules (rows : List Row) :
    (themeNames (load_from_csv rows).themes).Nodup ∧
    (∀ t ∈ (load_from_csv rows).themes, (actKeys t.activities).Nodup) ∧
    (∀ t ∈ (load_from_csv rows).themes, ∀ a ∈ t.activities,
      a.stories = (rows.filter (fun r =>
        rowTheme r == t.name && lower (rowActivity r) == lower a.name)).map mkStory) := by
  have hinv : loadInv (rows.foldl loadRow []) :=
    loadInv_foldl rows [] ⟨List.nodup_nil, by simp⟩
  have hthemes : (load_from_csv rows).themes = rows.foldl loadRow [] := rfl
  refine ⟨by rw [hthemes]; exact hinv.1, by rw [hthemes]; exact hinv.2, ?_⟩
  intro t ht a ha
  rw [hthemes] at ht
  have h1 : (rows.foldl loadRow []).find? (fun t' => t'.name == t.name) = some t :=
    find?_key_of_mem (fun t' => t'.name) _ t (by simpa [themeNames] using hinv.1) ht
  have h2 : t.activities.find? (fun a' => lower a'.name == lower a.name) = some a :=
    find?_key_of_mem (fun a' => lower a'.name) _ a
      (by simpa [actKeys] using hinv.2 t ht) ha
  have h3 := storiesOf_foldl t.name (lower a.name) rows []
  have h4 : storiesOf (rows.foldl loadRow []) t.name (lower a.name) = a.stories := by
    simp only [storiesOf, h1, h2]
  rw [← h4, h3]
  rfl

/-- Witness for C4: rows with themes "T","T","t" and activities "A","a","A":
the two "T" rows merge (case-sensitive theme match), their activities "A"
and "a" merge case-insensitively in input order, and "t" stays separate. -/
theorem loader_merge_rules_witness :
    (Theme.mk "T" [Activity.mk "A"
        [Story.mk "s1" "S1" "MO" "Backlog", Story.mk "s2" "S1" "MO" "Backlog"]] ∈
      (load_from_csv
        [⟨some "T", some "A", some "s1", none, none, none, none⟩,
         ⟨some "T", some "a", some "s2", none, none, none, none⟩,
         ⟨some "t", some "A", some "s3", none, none, none, none⟩]).themes) ∧
    (Activity.mk "A"
        [Story.mk "s1" "S1" "MO" "Backlog", Story.mk "s2" "S1" "MO" "Backlog"] ∈
      (Theme.mk "T" [Activity.mk "A"
        [Story.mk "s1" "S1" "MO" "Backlog", Story.mk "s2" "S1" "MO" "Backlog"]]).activities) ∧
    (Activity.mk "A"
        [Story.mk "s1" "S1" "MO" "Backlog", Story.mk "s2" "S1" "MO" "Backlog"]).stories =
      ([⟨some "T", some "A", some "s1", none, none, none, none⟩,
        ⟨some "T", some "a", some "s2", none, none, none, none⟩,
        ⟨some "t", some "A", some "s3", none, none, none, none⟩].filter (fun r =>
          rowTheme r == (Theme.mk "T" [Activity.mk "A"
            [Story.mk "s1" "S1" "MO" "Backlog", Story.mk "s2" "S1" "MO" "Backlog"]]).name &&
          lower (rowActivity r) == lower (Activity.mk "A"
            [Story.mk "s1" "S1" "MO" "Backlog",
             Story.mk "s2" "S1" "MO" "Backlog"]).name)).map mkStory :=
  ⟨by decide, by decide,
   (loader_merge_rules
      [⟨some "T", some "A", some "s1", none, none, none, none⟩,
       ⟨some "T", some "a", some "s2", none, none, none, none⟩,
       ⟨some "t", some "A", some "s3", none, none, none, none⟩]).2.2
      (Theme.mk "T" [Activity.mk "A"
        [Story.mk "s1" "S1" "MO" "Backlog", Story.mk "s2" "S1" "MO" "Backlog"]])
      (by decide)
      (Activity.mk "A"
        [Story.mk "s1" "S1" "MO" "Backlog", Story.mk "s2" "S1" "MO" "Backlog"])
      (by decide)⟩

/-- Claim C10: the `w`/`h` parameters of the three creation calls never reach
the request payload — each payload carries exactly the keys the source
writes (`data`/`position`, plus `style` for shapes and stickies) and no
geometry or size key of any kind. -/
theorem payloads_have_no_geometry (title text color shape : String)
    (x y w h w' h' : Int) :
    frame_payload title x y w h = frame_payload title x y w' h' ∧
    shape_payload text x y w h shape = shape_payload text x y w' h' shape ∧
    sticky_payload text x y color w h = sticky_payload text x y color w' h' ∧
    topKeys (frame_payload title x y w h) = ["data", "position"] ∧
    topKeys (shape_payload text x y w h shape) = ["data", "position", "style"] ∧
    topKeys (sticky_payload text x y color w h) = ["data", "style", "position"] ∧
    "geometry" ∉ topKeys (frame_payload title x y w h) ∧
    "geometry" ∉ topKeys (shape_payload text x y w h shape) ∧
    "geometry" ∉ topKeys (sticky_payload text x y color w h) := by
  refine ⟨rfl, rfl, rfl, rfl, rfl, rfl, ?_, ?_, ?_⟩
  · have hk : topKeys (frame_payload title x y w h) = ["data", "position"] := rfl
    rw [hk]; decide
  · have hk : topKeys (shape_payload text x y w h shape) = ["data", "position", "style"] := rfl
    rw [hk]; decide
  · have hk : topKeys (sticky_payload text x y color w h) = ["data", "style", "position"] := rfl
    rw [hk]; decide

end Miro
